import Mathlib

/-!
Verification of the declarative-state reconciliation engine of
`relation_engine_server/utils/ensure_specs.py`.

The engine compares locally declared schema specifications (collection
indexes, views, analyzers) against the live configuration of a remote
ArangoDB server and reports mismatches.  We shallowly embed the Python
module: JSON documents become the inductive type `Json`, Python dicts
become ordered association lists, the in-place normalizer
`mod_obj_literal` becomes a pure recursive rewrite, and code that can
raise a Python exception returns `Except String` (the string describes
the exception).  Python floats are modelled as exact rationals and
`round(x, 7)` as exact decimal rounding half-to-even.
-/

namespace RelationEngine

/-- A JSON value as handled by the Python module: dicts are ordered
association lists with string keys (Python dicts preserve insertion
order and have unique keys). -/
inductive Json where
  | null
  | bool (b : Bool)
  | num (q : Rat)
  | str (s : String)
  | arr (elems : List Json)
  | obj (fields : List (String × Json))

mutual

/-- Deep structural equality of JSON values (Python `==` on parsed JSON). -/
def jsonBEq : Json → Json → Bool
  | .null, .null => true
  | .bool a, .bool b => a == b
  | .num a, .num b => a == b
  | .str a, .str b => a == b
  | .arr a, .arr b => jsonListBEq a b
  | .obj a, .obj b => jsonFieldsBEq a b
  | _, _ => false

def jsonListBEq : List Json → List Json → Bool
  | [], [] => true
  | a :: as, b :: bs => jsonBEq a b && jsonListBEq as bs
  | _, _ => false

def jsonFieldsBEq : List (String × Json) → List (String × Json) → Bool
  | [], [] => true
  | (k1, v1) :: as, (k2, v2) :: bs => k1 == k2 && jsonBEq v1 v2 && jsonFieldsBEq as bs
  | _, _ => false

end

mutual

theorem jsonBEq_iff : ∀ (a b : Json), jsonBEq a b = true ↔ a = b
  | .null, b => by cases b <;> simp [jsonBEq]
  | .bool x, b => by cases b <;> simp [jsonBEq]
  | .num x, b => by cases b <;> simp [jsonBEq]
  | .str x, b => by cases b <;> simp [jsonBEq]
  | .arr as, .arr bs => by
      have h := jsonListBEq_iff as bs
      simp [jsonBEq, h]
  | .arr as, .null => by simp [jsonBEq]
  | .arr as, .bool _ => by simp [jsonBEq]
  | .arr as, .num _ => by simp [jsonBEq]
  | .arr as, .str _ => by simp [jsonBEq]
  | .arr as, .obj _ => by simp [jsonBEq]
  | .obj as, .obj bs => by
      have h := jsonFieldsBEq_iff as bs
      simp [jsonBEq, h]
  | .obj as, .null => by simp [jsonBEq]
  | .obj as, .bool _ => by simp [jsonBEq]
  | .obj as, .num _ => by simp [jsonBEq]
  | .obj as, .str _ => by simp [jsonBEq]
  | .obj as, .arr _ => by simp [jsonBEq]

theorem jsonListBEq_iff : ∀ (a b : List Json), jsonListBEq a b = true ↔ a = b
  | [], [] => by simp [jsonListBEq]
  | [], _ :: _ => by simp [jsonListBEq]
  | _ :: _, [] => by simp [jsonListBEq]
  | a :: as, b :: bs => by
      have h1 := jsonBEq_iff a b
      have h2 := jsonListBEq_iff as bs
      simp [jsonListBEq, h1, h2]

theorem jsonFieldsBEq_iff : ∀ (a b : List (String × Json)), jsonFieldsBEq a b = true ↔ a = b
  | [], [] => by simp [jsonFieldsBEq]
  | [], _ :: _ => by simp [jsonFieldsBEq]
  | _ :: _, [] => by simp [jsonFieldsBEq]
  | (k1, v1) :: as, (k2, v2) :: bs => by
      have h1 := jsonBEq_iff v1 v2
      have h2 := jsonFieldsBEq_iff as bs
      simp [jsonFieldsBEq, h1, h2, and_assoc]

end

instance : DecidableEq Json := fun a b => decidable_of_iff _ (jsonBEq_iff a b)

/-- A Python dict with string keys: an ordered association list. -/
abbrev Dict := List (String × Json)

/-- Lookup in an ordered association list, mirroring Python `d[k]` /
`k in d` (keys of a real Python dict are unique, so first match). -/
def alookup {α : Type} : List (String × α) → String → Option α
  | [], _ => none
  | (k, v) :: rest, key => if k = key then some v else alookup rest key

/-- The keys of a Python dict are pairwise distinct. -/
def keysNodup {α : Type} (d : List (String × α)) : Prop :=
  (d.map Prod.fst).Nodup

instance {α : Type} (d : List (String × α)) : Decidable (keysNodup d) :=
  inferInstanceAs (Decidable (List.Nodup _))

/-- The Matcher used inline by all three pipelines:
`local_spec.items() <= server_spec.items()`.  For Python dict views this
holds iff every (key, value) pair of the left dict occurs in the right
dict, i.e. the key is present and maps to a `==`-equal value. -/
def itemsSubset (l r : Dict) : Bool :=
  l.all fun kv =>
    match alookup r kv.1 with
    | some w => decide (w = kv.2)
    | none => false

/-- The match-search loop shared (in shape) by `ensure_indexes` and
`ensure_views`:

    match = False
    for spec_server in pool:
        if spec_local.items() <= spec_server.items():
            match = True
            break

returning the final value of `match`. -/
def matchLoop (l : Dict) : List Dict → Bool
  | [] => false
  | r :: rest => if itemsSubset l r then true else matchLoop l rest

theorem alookup_mem {α : Type} {d : List (String × α)} {k : String} {v : α}
    (h : alookup d k = some v) : (k, v) ∈ d := by
  induction d with
  | nil => simp [alookup] at h
  | cons hd tl ih =>
    obtain ⟨k0, v0⟩ := hd
    by_cases hk : k0 = k
    · subst hk
      simp [alookup] at h
      simp [h]
    · simp [alookup, hk] at h
      exact List.mem_cons_of_mem _ (ih h)

theorem mem_alookup {α : Type} {d : List (String × α)} {k : String} {v : α}
    (hmem : (k, v) ∈ d) (hnd : keysNodup d) : alookup d k = some v := by
  induction d with
  | nil => simp at hmem
  | cons hd tl ih =>
    obtain ⟨k0, v0⟩ := hd
    rcases List.mem_cons.mp hmem with heq | htl
    · obtain ⟨h1, h2⟩ := Prod.mk.injEq .. ▸ heq
      simp [alookup, h1.symm, h2]
    · have hk0 : k0 ≠ k := by
        intro he
        subst he
        have : k0 ∈ tl.map Prod.fst := List.mem_map.mpr ⟨(k0, v), htl, rfl⟩
        exact (List.nodup_cons.mp hnd).1 this
      simp only [alookup, hk0, if_false]
      exact ih htl (List.nodup_cons.mp hnd).2

theorem alookup_append_left {α : Type} {d : List (String × α)} {k : String} {v : α}
    (h : alookup d k = some v) (d2 : List (String × α)) :
    alookup (d ++ d2) k = some v := by
  induction d with
  | nil => simp [alookup] at h
  | cons hd tl ih =>
    obtain ⟨k0, v0⟩ := hd
    by_cases hk : k0 = k
    · subst hk
      simp_all [alookup]
    · simp_all [alookup, hk]

theorem itemsSubset_iff {l r : Dict} (hr : keysNodup r) :
    itemsSubset l r = true ↔ ∀ kv ∈ l, kv ∈ r := by
  constructor
  · intro h kv hkv
    have := List.all_eq_true.mp h kv hkv
    cases hlk : alookup r kv.1 with
    | none => rw [hlk] at this; simp at this
    | some w =>
      rw [hlk] at this
      have hw : w = kv.2 := of_decide_eq_true this
      subst hw
      exact alookup_mem hlk
  · intro h
    apply List.all_eq_true.mpr
    intro kv hkv
    have := mem_alookup (d := r) (k := kv.1) (v := kv.2) (by exact h kv hkv) hr
    rw [this]
    simp

theorem matchLoop_iff (l : Dict) (pool : List Dict) :
    matchLoop l pool = true ↔ ∃ r ∈ pool, itemsSubset l r = true := by
  induction pool with
  | nil => simp [matchLoop]
  | cons hd tl ih =>
    by_cases h : itemsSubset l hd = true
    · simp [matchLoop, h]
    · simp only [Bool.not_eq_true] at h
      simp [matchLoop, h, ih]

/-- C2: the inlined matching check `local.items() <= server.items()`, as
used in `ensure_views`, is true for a pool iff some document of the pool
contains every (key, value) pair of the local spec with a deeply-equal
value; in particular a local spec `L` is satisfied by the pool `[D]`
where `D = L ++ extra` adds extra keys to a copy of `L`, and by the pool
`[L]` itself.  (Pool documents and `L ++ extra` are Python dicts, so
their keys are distinct.) -/
theorem matcher_satisfied_iff (L extra : Dict) (pool : List Dict)
    (hpool : ∀ D ∈ pool, keysNodup D) (hLe : keysNodup (L ++ extra)) :
    (matchLoop L pool = true ↔ ∃ D ∈ pool, ∀ kv ∈ L, kv ∈ D)
    ∧ matchLoop L [L ++ extra] = true
    ∧ matchLoop L [L] = true := by
  have hL : keysNodup L := by
    have h2 : ((L ++ extra).map Prod.fst).Nodup := hLe
    rw [List.map_append] at h2
    exact h2.of_append_left
  refine ⟨?_, ?_, ?_⟩
  · rw [matchLoop_iff]
    constructor
    · rintro ⟨D, hD, hs⟩
      exact ⟨D, hD, (itemsSubset_iff (hpool D hD)).mp hs⟩
    · rintro ⟨D, hD, hs⟩
      exact ⟨D, hD, (itemsSubset_iff (hpool D hD)).mpr hs⟩
  · have hsub : itemsSubset L (L ++ extra) = true := by
      unfold itemsSubset
      apply List.all_eq_true.mpr
      intro kv hkv
      have hv : alookup L kv.1 = some kv.2 :=
        mem_alookup (by simpa using hkv) hL
      simp only [alookup_append_left hv extra]
      simp
    simp [matchLoop, hsub]
  · have hsub : itemsSubset L L = true := by
      unfold itemsSubset
      apply List.all_eq_true.mpr
      intro kv hkv
      have hv : alookup L kv.1 = some kv.2 :=
        mem_alookup (by simpa using hkv) hL
      simp only [hv]
      simp
    simp [matchLoop, hsub]

/-- C2 witness: the matcher theorem instantiated at the concrete local
spec `{"name": "x"}`, extra key `{"extraKey": null}` and the pool holding
the extended document. -/
theorem matcher_satisfied_iff_witness :
    (∀ D ∈ [[("name", Json.str "x"), ("extraKey", Json.null)]], keysNodup D)
    ∧ keysNodup ([("name", Json.str "x")] ++ [("extraKey", Json.null)])
    ∧ ((matchLoop [("name", Json.str "x")]
          [[("name", Json.str "x"), ("extraKey", Json.null)]] = true
          ↔ ∃ D ∈ [[("name", Json.str "x"), ("extraKey", Json.null)]],
              ∀ kv ∈ [("name", Json.str "x")], kv ∈ D)
        ∧ matchLoop [("name", Json.str "x")]
            [[("name", Json.str "x")] ++ [("extraKey", Json.null)]] = true
        ∧ matchLoop [("name", Json.str "x")] [[("name", Json.str "x")]] = true) :=
  ⟨by decide, by decide,
   matcher_satisfied_iff [("name", Json.str "x")] [("extraKey", Json.null)]
     [[("name", Json.str "x"), ("extraKey", Json.null)]] (by decide) (by decide)⟩

/-- The `literal_type` argument of `mod_obj_literal`: Python `float` or
`str` (numbers are modelled as exact rationals). -/
inductive LitKind where
  | floatKind
  | strKind
deriving DecidableEq

/-- Python `isinstance(v, literal_type)` for the two literal kinds. -/
def isLit : LitKind → Json → Bool
  | .floatKind, .num _ => true
  | .strKind, .str _ => true
  | _, _ => false

/-- Python `isinstance(v, dict) or isinstance(v, list)`. -/
def isContainer : Json → Bool
  | .obj _ => true
  | .arr _ => true
  | _ => false

mutual

/-- The Normalizer `mod_obj_literal(spec_unit, literal_type, func)`,
written as a pure function (the Python code mutates `spec_unit` in
place and returns `None`; the result here is the mutated structure).
Dict and list nodes recurse; other values at the top level are left
alone (the Python code takes neither branch for them). -/
def mod_obj_literal (k : LitKind) (f : Json → Json) : Json → Json
  | .obj kvs => .obj (modFields k f kvs)
  | .arr xs => .arr (modElems k f xs)
  | v => v

/-- Loop `for i, v in enumerate(spec_unit)` of `mod_obj_literal`: dict
or list entries recurse into `mod_obj_literal`, literals of the target
kind are replaced by `func(v)`, everything else is untouched. -/
def modElems (k : LitKind) (f : Json → Json) : List Json → List Json
  | [] => []
  | v :: rest =>
    (if isContainer v then mod_obj_literal k f v
     else if isLit k v then f v else v) :: modElems k f rest

/-- Loop `for k, v in spec_unit.items()` of `mod_obj_literal`: values
that are dicts or lists recurse into `mod_obj_literal`, literal values
of the target kind are replaced by `func(v)`, all other values (and
every key) are untouched. -/
def modFields (k : LitKind) (f : Json → Json) : List (String × Json) → List (String × Json)
  | [] => []
  | (key, v) :: rest =>
    (key, if isContainer v then mod_obj_literal k f v
          else if isLit k v then f v else v) :: modFields k f rest

end

/-- Python `round` at a rational: round to the nearest integer, ties to
even. -/
def pyRound (q : Rat) : Int :=
  let fl := ⌊q⌋
  let frac := q - fl
  if frac < 1 / 2 then fl
  else if 1 / 2 < frac then fl + 1
  else if 2 ∣ fl then fl else fl + 1

/-- Transform `round_float(num) = round(num, 7)`: round to seven decimal
places (floats modelled as exact rationals). -/
def round_float (q : Rat) : Rat :=
  (pyRound (q * 10000000) : Rat) / 10000000

/-- Python `str.split("::")` on the character list of a string: split on
non-overlapping occurrences of `"::"`, scanning left to right. -/
def splitColons : List Char → List (List Char)
  | [] => [[]]
  | ':' :: ':' :: rest => [] :: splitColons rest
  | c :: rest =>
    match splitColons rest with
    | [] => [[c]]
    | p :: ps => (c :: p) :: ps

/-- Transform `excise_namespace(analyzer_name) = analyzer_name.split("::")[-1]`. -/
def excise_namespace (s : String) : String :=
  String.mk ((splitColons s.data).getLastD [])

/-- Decides whether a character list contains an occurrence of `"::"`. -/
def hasColons : List Char → Bool
  | [] => false
  | c :: rest => (decide (c = ':') && decide (rest.head? = some ':')) || hasColons rest

/-- Joins chunks with the separator `"::"`; left inverse of `splitColons`. -/
def joinColons : List (List Char) → List Char
  | [] => []
  | [p] => p
  | p :: ps => p ++ ':' :: ':' :: joinColons ps

/-- The `func` argument fed to `mod_obj_literal` by `ensure_views`:
`round_float` lifted to the JSON values it is applied to. -/
def roundLit : Json → Json
  | .num q => .num (round_float q)
  | v => v

/-- The `func` argument fed to `mod_obj_literal` by `ensure_analyzers`:
`excise_namespace` lifted to the JSON values it is applied to. -/
def exciseLit : Json → Json
  | .str s => .str (excise_namespace s)
  | v => v

mutual

/-- Specification-side description of the Normalizer (§4.1 of the spec):
rewrite every value of the target kind anywhere in the structure by
applying the transform, leave values of any other kind untouched, and
preserve the shape (keys, ordering, nesting).  Compared against
`mod_obj_literal` in the C4 theorem. -/
def normalizeLeaves (k : LitKind) (f : Json → Json) : Json → Json
  | .obj kvs => .obj (normalizeLeavesFields k f kvs)
  | .arr xs => .arr (normalizeLeavesElems k f xs)
  | v => if isLit k v then f v else v

def normalizeLeavesElems (k : LitKind) (f : Json → Json) : List Json → List Json
  | [] => []
  | v :: rest => normalizeLeaves k f v :: normalizeLeavesElems k f rest

def normalizeLeavesFields (k : LitKind) (f : Json → Json) :
    List (String × Json) → List (String × Json)
  | [] => []
  | (key, v) :: rest => (key, normalizeLeaves k f v) :: normalizeLeavesFields k f rest

end

mutual

theorem modElems_eq_normalize (k : LitKind) (f : Json → Json) :
    ∀ xs : List Json, modElems k f xs = normalizeLeavesElems k f xs
  | [] => by simp [modElems, normalizeLeavesElems]
  | v :: rest => by
      cases v with
      | null =>
        simp [modElems, normalizeLeavesElems, normalizeLeaves, isContainer,
              modElems_eq_normalize k f rest]
      | bool b =>
        simp [modElems, normalizeLeavesElems, normalizeLeaves, isContainer,
              modElems_eq_normalize k f rest]
      | num q =>
        simp [modElems, normalizeLeavesElems, normalizeLeaves, isContainer,
              modElems_eq_normalize k f rest]
      | str s =>
        simp [modElems, normalizeLeavesElems, normalizeLeaves, isContainer,
              modElems_eq_normalize k f rest]
      | arr xs =>
        simp [modElems, normalizeLeavesElems, normalizeLeaves, isContainer,
              mod_obj_literal, modElems_eq_normalize k f xs,
              modElems_eq_normalize k f rest]
      | obj kvs =>
        simp [modElems, normalizeLeavesElems, normalizeLeaves, isContainer,
              mod_obj_literal, modFields_eq_normalize k f kvs,
              modElems_eq_normalize k f rest]

theorem modFields_eq_normalize (k : LitKind) (f : Json → Json) :
    ∀ kvs : List (String × Json), modFields k f kvs = normalizeLeavesFields k f kvs
  | [] => by simp [modFields, normalizeLeavesFields]
  | (key, v) :: rest => by
      cases v with
      | null =>
        simp [modFields, normalizeLeavesFields, normalizeLeaves, isContainer,
              modFields_eq_normalize k f rest]
      | bool b =>
        simp [modFields, normalizeLeavesFields, normalizeLeaves, isContainer,
              modFields_eq_normalize k f rest]
      | num q =>
        simp [modFields, normalizeLeavesFields, normalizeLeaves, isContainer,
              modFields_eq_normalize k f rest]
      | str s =>
        simp [modFields, normalizeLeavesFields, normalizeLeaves, isContainer,
              modFields_eq_normalize k f rest]
      | arr xs =>
        simp [modFields, normalizeLeavesFields, normalizeLeaves, isContainer,
              mod_obj_literal, modElems_eq_normalize k f xs,
              modFields_eq_normalize k f rest]
      | obj kvs2 =>
        simp [modFields, normalizeLeavesFields, normalizeLeaves, isContainer,
              mod_obj_literal, modFields_eq_normalize k f kvs2,
              modFields_eq_normalize k f rest]

end

theorem normalizeLeavesFields_keys (k : LitKind) (f : Json → Json)
    (kvs : List (String × Json)) :
    (normalizeLeavesFields k f kvs).map Prod.fst = kvs.map Prod.fst := by
  induction kvs with
  | nil => simp [normalizeLeavesFields]
  | cons hd tl ih =>
    obtain ⟨key, v⟩ := hd
    simp [normalizeLeavesFields, ih]

theorem normalizeLeavesElems_length (k : LitKind) (f : Json → Json)
    (xs : List Json) :
    (normalizeLeavesElems k f xs).length = xs.length := by
  induction xs with
  | nil => simp [normalizeLeavesElems]
  | cons hd tl ih => simp [normalizeLeavesElems, ih]

/-- C4: for every nested structure (dict or list), target primitive kind
and transform, `mod_obj_literal` equals the transparent recursive leaf
map `normalizeLeaves` (which rewrites exactly the values of the target
kind and leaves all others alone); moreover dict keys and their order
are preserved and list lengths are preserved. -/
theorem mod_obj_literal_normalizes (k : LitKind) (f : Json → Json) :
    (∀ s : Json, isContainer s = true → mod_obj_literal k f s = normalizeLeaves k f s)
    ∧ (∀ kvs : List (String × Json),
        (modFields k f kvs).map Prod.fst = kvs.map Prod.fst)
    ∧ (∀ xs : List Json, (modElems k f xs).length = xs.length) := by
  refine ⟨?_, ?_, ?_⟩
  · intro s hs
    cases s with
    | arr xs =>
      simp [mod_obj_literal, normalizeLeaves, modElems_eq_normalize k f xs]
    | obj kvs =>
      simp [mod_obj_literal, normalizeLeaves, modFields_eq_normalize k f kvs]
    | null => simp [isContainer] at hs
    | bool b => simp [isContainer] at hs
    | num q => simp [isContainer] at hs
    | str s => simp [isContainer] at hs
  · intro kvs
    rw [modFields_eq_normalize]
    exact normalizeLeavesFields_keys k f kvs
  · intro xs
    rw [modElems_eq_normalize]
    exact normalizeLeavesElems_length k f xs

/-- C4 witness: the Normalizer theorem applied at the rounding transform
and the concrete structure
`{"a": 1.5, "b": [2.25, "s"], "c": {"d": null}}`. -/
theorem mod_obj_literal_normalizes_witness :
    isContainer (Json.obj [("a", Json.num (3 / 2)),
      ("b", Json.arr [Json.num (9 / 4), Json.str "s"]),
      ("c", Json.obj [("d", Json.null)])]) = true
    ∧ mod_obj_literal .floatKind roundLit
        (Json.obj [("a", Json.num (3 / 2)),
          ("b", Json.arr [Json.num (9 / 4), Json.str "s"]),
          ("c", Json.obj [("d", Json.null)])])
      = normalizeLeaves .floatKind roundLit
        (Json.obj [("a", Json.num (3 / 2)),
          ("b", Json.arr [Json.num (9 / 4), Json.str "s"]),
          ("c", Json.obj [("d", Json.null)])]) :=
  ⟨rfl,
   (mod_obj_literal_normalizes .floatKind roundLit).1
     (Json.obj [("a", Json.num (3 / 2)),
       ("b", Json.arr [Json.num (9 / 4), Json.str "s"]),
       ("c", Json.obj [("d", Json.null)])]) rfl⟩

theorem pyRound_intCast (n : Int) : pyRound (n : Rat) = n := by
  unfold pyRound
  rw [Int.floor_intCast]
  norm_num

theorem round_float_idem (q : Rat) : round_float (round_float q) = round_float q := by
  unfold round_float
  rw [div_mul_cancel₀ _ (by norm_num : (10000000 : Rat) ≠ 0), pyRound_intCast]

theorem splitColons_nil : splitColons [] = [[]] := by
  simp [splitColons]

theorem splitColons_sep (rest : List Char) :
    splitColons (':' :: ':' :: rest) = [] :: splitColons rest := by
  simp [splitColons]

theorem splitColons_cons {c : Char} {rest : List Char}
    (h : ∀ t, c = ':' → rest = ':' :: t → False) :
    splitColons (c :: rest) =
      match splitColons rest with
      | [] => [[c]]
      | p :: ps => (c :: p) :: ps := by
  rw [splitColons.eq_def]
  split
  · rename_i heq
    exact absurd heq (by simp)
  · rename_i tail heq
    injection heq with h1 h2
    exact (h tail h1 h2).elim
  · rename_i c2 rest2 h2 heq
    injection heq with h1 h3
    subst h1 h3
    rfl

theorem hasColons_sep (rest : List Char) :
    hasColons (':' :: ':' :: rest) = true := by
  simp [hasColons]

theorem hasColons_cons_of_not {c : Char} {rest : List Char}
    (h : ∀ t, c = ':' → rest = ':' :: t → False) :
    hasColons (c :: rest) = hasColons rest := by
  show ((decide (c = ':') && decide (rest.head? = some ':')) || hasColons rest)
        = hasColons rest
  by_cases hc : c = ':'
  · cases rest with
    | nil => simp
    | cons d t =>
      by_cases hd : d = ':'
      · exact ((h t hc (by rw [hd])).elim)
      · simp [hd]
  · simp [hc]

theorem splitColons_ne_nil (l : List Char) : splitColons l ≠ [] := by
  induction l using splitColons.induct with
  | case1 => simp [splitColons_nil]
  | case2 rest ih => simp [splitColons_sep]
  | case3 c rest h heq ih => exact absurd heq ih
  | case4 c rest h p ps heq ih =>
    rw [splitColons_cons h, heq]
    simp

theorem joinColons_cons (p : List Char) {ps : List (List Char)} (h : ps ≠ []) :
    joinColons (p :: ps) = p ++ ':' :: ':' :: joinColons ps := by
  cases ps with
  | nil => simp at h
  | cons q qs => simp [joinColons]

/-- Splitting on `"::"` and rejoining with `"::"` recovers the original
character list: `splitColons` is a decomposition of its input along the
separator occurrences it consumed. -/
theorem joinColons_splitColons (l : List Char) : joinColons (splitColons l) = l := by
  induction l using splitColons.induct with
  | case1 => simp [splitColons_nil, joinColons]
  | case2 rest ih =>
    rw [splitColons_sep, joinColons_cons [] (splitColons_ne_nil rest), ih]
    rfl
  | case3 c rest h heq ih =>
    exact absurd heq (splitColons_ne_nil rest)
  | case4 c rest h p ps heq ih =>
    rw [splitColons_cons h, heq]
    rw [heq] at ih
    show joinColons ((c :: p) :: ps) = c :: rest
    cases ps with
    | nil =>
      simp only [joinColons] at ih ⊢
      rw [ih]
    | cons q qs =>
      rw [joinColons_cons p (by simp)] at ih
      rw [joinColons_cons (c :: p) (by simp), List.cons_append, ih]

theorem splitColons_singleton {l p : List Char} (h : splitColons l = [p]) : p = l := by
  have h2 := joinColons_splitColons l
  rw [h] at h2
  simpa [joinColons] using h2

theorem hasColons_getLastD (l : List Char) :
    hasColons ((splitColons l).getLastD []) = false := by
  induction l using splitColons.induct with
  | case1 => simp [splitColons_nil, hasColons]
  | case2 rest ih =>
    rw [splitColons_sep, List.getLastD_cons]
    exact ih
  | case3 c rest h heq ih =>
    exact absurd heq (splitColons_ne_nil rest)
  | case4 c rest h p ps heq ih =>
    rw [splitColons_cons h, heq]
    rw [heq] at ih
    show hasColons (((c :: p) :: ps).getLastD []) = false
    cases ps with
    | nil =>
      have hp : p = rest := splitColons_singleton heq
      subst hp
      simp only [List.getLastD_cons, List.getLastD_nil] at ih ⊢
      rw [hasColons_cons_of_not h]
      exact ih
    | cons q qs =>
      simp only [List.getLastD_cons] at ih ⊢
      exact ih

theorem splitColons_no_colons {l : List Char} (h : hasColons l = false) :
    splitColons l = [l] := by
  induction l using splitColons.induct with
  | case1 => exact splitColons_nil
  | case2 rest ih =>
    rw [hasColons_sep rest] at h
    cases h
  | case3 c rest h2 heq ih =>
    exact absurd heq (splitColons_ne_nil rest)
  | case4 c rest h2 p ps heq ih =>
    rw [hasColons_cons_of_not h2] at h
    have h3 := ih h
    rw [heq] at h3
    injection h3 with e1 e2
    subst e1 e2
    rw [splitColons_cons h2, heq]

theorem excise_namespace_idem (s : String) :
    excise_namespace (excise_namespace s) = excise_namespace s := by
  unfold excise_namespace
  have h1 : hasColons ((splitColons s.data).getLastD []) = false :=
    hasColons_getLastD s.data
  rw [show (String.mk ((splitColons s.data).getLastD [])).data
        = (splitColons s.data).getLastD [] from rfl]
  rw [splitColons_no_colons h1]
  simp [List.getLastD_cons]

/-- Action of one `mod_obj_literal` pass on a non-container value. -/
def leafAct (k : LitKind) (f : Json → Json) (v : Json) : Json :=
  if isLit k v then f v else v

theorem modElems_cons_leaf (k : LitKind) (f : Json → Json) (v : Json)
    (h : isContainer v = false) (rest : List Json) :
    modElems k f (v :: rest) = leafAct k f v :: modElems k f rest := by
  simp [modElems, h, leafAct]

theorem modFields_cons_leaf (k : LitKind) (f : Json → Json) (v : Json)
    (h : isContainer v = false) (key : String) (rest : List (String × Json)) :
    modFields k f ((key, v) :: rest) = (key, leafAct k f v) :: modFields k f rest := by
  simp [modFields, h, leafAct]

theorem isContainer_mod (k : LitKind) (f : Json → Json) (v : Json) :
    isContainer (mod_obj_literal k f v) = isContainer v := by
  cases v <;> simp [mod_obj_literal, isContainer]

theorem leafAct_not_container (k : LitKind) (f : Json → Json)
    (hf : ∀ v, isLit k v = true → isLit k (f v) = true ∧ f (f v) = f v)
    (v : Json) (h : isContainer v = false) :
    isContainer (leafAct k f v) = false := by
  unfold leafAct
  by_cases hl : isLit k v = true
  · simp only [hl, if_true]
    have h2 := (hf v hl).1
    cases k <;> cases hfv : f v <;> rw [hfv] at h2 <;> simp_all [isLit, isContainer]
  · simp only [Bool.not_eq_true] at hl
    simp [hl, h]

theorem leafAct_idem (k : LitKind) (f : Json → Json)
    (hf : ∀ v, isLit k v = true → isLit k (f v) = true ∧ f (f v) = f v)
    (v : Json) : leafAct k f (leafAct k f v) = leafAct k f v := by
  unfold leafAct
  by_cases hl : isLit k v = true
  · obtain ⟨h1, h2⟩ := hf v hl
    simp [hl, h1, h2]
  · simp only [Bool.not_eq_true] at hl
    simp [hl]

mutual

theorem mod_obj_literal_idem (k : LitKind) (f : Json → Json)
    (hf : ∀ v, isLit k v = true → isLit k (f v) = true ∧ f (f v) = f v) :
    ∀ v : Json, mod_obj_literal k f (mod_obj_literal k f v) = mod_obj_literal k f v
  | .obj kvs => by simp [mod_obj_literal, modFields_idem k f hf kvs]
  | .arr xs => by simp [mod_obj_literal, modElems_idem k f hf xs]
  | .null => by simp [mod_obj_literal]
  | .bool b => by simp [mod_obj_literal]
  | .num q => by simp [mod_obj_literal]
  | .str s => by simp [mod_obj_literal]

theorem modElems_idem (k : LitKind) (f : Json → Json)
    (hf : ∀ v, isLit k v = true → isLit k (f v) = true ∧ f (f v) = f v) :
    ∀ xs : List Json, modElems k f (modElems k f xs) = modElems k f xs
  | [] => by simp [modElems]
  | v :: rest => by
      by_cases h : isContainer v = true
      · have e1 : modElems k f (v :: rest)
            = mod_obj_literal k f v :: modElems k f rest := by
          simp [modElems, h]
        have e2 : modElems k f (mod_obj_literal k f v :: modElems k f rest)
            = mod_obj_literal k f (mod_obj_literal k f v)
              :: modElems k f (modElems k f rest) := by
          simp [modElems, isContainer_mod, h]
        rw [e1, e2, mod_obj_literal_idem k f hf v, modElems_idem k f hf rest]
      · simp only [Bool.not_eq_true] at h
        rw [modElems_cons_leaf k f v h rest,
            modElems_cons_leaf k f (leafAct k f v)
              (leafAct_not_container k f hf v h) (modElems k f rest),
            leafAct_idem k f hf, modElems_idem k f hf rest]

theorem modFields_idem (k : LitKind) (f : Json → Json)
    (hf : ∀ v, isLit k v = true → isLit k (f v) = true ∧ f (f v) = f v) :
    ∀ kvs : List (String × Json), modFields k f (modFields k f kvs) = modFields k f kvs
  | [] => by simp [modFields]
  | (key, v) :: rest => by
      by_cases h : isContainer v = true
      · have e1 : modFields k f ((key, v) :: rest)
            = (key, mod_obj_literal k f v) :: modFields k f rest := by
          simp [modFields, h]
        have e2 : modFields k f ((key, mod_obj_literal k f v) :: modFields k f rest)
            = (key, mod_obj_literal k f (mod_obj_literal k f v))
              :: modFields k f (modFields k f rest) := by
          simp [modFields, isContainer_mod, h]
        rw [e1, e2, mod_obj_literal_idem k f hf v, modFields_idem k f hf rest]
      · simp only [Bool.not_eq_true] at h
        rw [modFields_cons_leaf k f v h key rest,
            modFields_cons_leaf k f (leafAct k f v)
              (leafAct_not_container k f hf v h) key (modFields k f rest),
            leafAct_idem k f hf, modFields_idem k f hf rest]

end

/-- C5: applying the Normalizer twice with the same transform equals
applying it once, on every nested structure, both for the
numeric-rounding transform `round_float` and for the namespace-excision
transform `excise_namespace`. -/
theorem mod_obj_literal_idempotent (s : Json) :
    mod_obj_literal .floatKind roundLit (mod_obj_literal .floatKind roundLit s)
      = mod_obj_literal .floatKind roundLit s
    ∧ mod_obj_literal .strKind exciseLit (mod_obj_literal .strKind exciseLit s)
      = mod_obj_literal .strKind exciseLit s := by
  have hfr : ∀ v, isLit .floatKind v = true →
      isLit .floatKind (roundLit v) = true ∧ roundLit (roundLit v) = roundLit v := by
    intro v hv
    cases v with
    | num q =>
      exact ⟨by simp [roundLit, isLit], by simp [roundLit, round_float_idem]⟩
    | null => simp [isLit] at hv
    | bool b => simp [isLit] at hv
    | str s2 => simp [isLit] at hv
    | arr xs => simp [isLit] at hv
    | obj kvs => simp [isLit] at hv
  have hfe : ∀ v, isLit .strKind v = true →
      isLit .strKind (exciseLit v) = true ∧ exciseLit (exciseLit v) = exciseLit v := by
    intro v hv
    cases v with
    | str s2 =>
      exact ⟨by simp [exciseLit, isLit], by simp [exciseLit, excise_namespace_idem]⟩
    | null => simp [isLit] at hv
    | bool b => simp [isLit] at hv
    | num q => simp [isLit] at hv
    | arr xs => simp [isLit] at hv
    | obj kvs => simp [isLit] at hv
  exact ⟨mod_obj_literal_idem .floatKind roundLit hfr s,
         mod_obj_literal_idem .strKind exciseLit hfe s⟩

/-- Single-quote character as a string (used by Python `repr`). -/
def squote : String := String.singleton (Char.ofNat 39)

mutual

/-- Python `repr` of a JSON value, as used by f-string formatting of
lists; the decimal formatting of numbers is approximated through the
rational model (no behavior settled here depends on numeric
formatting). -/
def pyRepr : Json → String
  | .null => "None"
  | .bool b => if b then "True" else "False"
  | .num q => if q.den = 1 then toString q.num else toString q
  | .str s => squote ++ s ++ squote
  | .arr xs => "[" ++ pyReprElems xs ++ "]"
  | .obj kvs => "\x7b" ++ pyReprFields kvs ++ "\x7d"

def pyReprElems : List Json → String
  | [] => ""
  | [x] => pyRepr x
  | x :: rest => pyRepr x ++ ", " ++ pyReprElems rest

def pyReprFields : List (String × Json) → String
  | [] => ""
  | [(k, v)] => squote ++ k ++ squote ++ ": " ++ pyRepr v
  | (k, v) :: rest => squote ++ k ++ squote ++ ": " ++ pyRepr v ++ ", " ++ pyReprFields rest

end

/-- Python `str(v)` as used by f-string interpolation: strings appear
verbatim, other values by their repr. -/
def pyStr : Json → String
  | .str s => s
  | v => pyRepr v

/-- Value stored for one collection in the `failed_specs` dict built by
`ensure_indexes`: either a Python list of index documents (absent
collection, line 52, or the initial `[]` of line 55) or a single bare
index document (the overwrite on line 64). -/
inductive FailRec where
  | list (idxs : List Dict)
  | single (idx : Dict)
deriving DecidableEq

/-- Python truthiness of a failure-record value (empty list and empty
dict are falsy), as used by the `if v` filter on line 67. -/
def failTruthy : FailRec → Bool
  | .list idxs => !idxs.isEmpty
  | .single d => !d.isEmpty

/-- Inner loop of `ensure_indexes` over the local indexes of one
collection present on the server (lines 57-64): an unmatched local
index overwrites the accumulated record with that single bare index
document. -/
def indexCollLoop (srv : List Dict) : List Dict → FailRec → FailRec
  | [], acc => acc
  | d :: rest, acc =>
    if matchLoop d srv then indexCollLoop srv rest acc
    else indexCollLoop srv rest (FailRec.single d)

/-- Loop of `ensure_indexes` over the local collections (lines 47-64),
producing the `failed_specs` dict before the truthiness filter. -/
def buildIndexFailures (server : List (String × List Dict)) :
    List (String × List Dict) → List (String × FailRec)
  | [] => []
  | (coll, idxs) :: rest =>
    (coll,
      match alookup server coll with
      | none => FailRec.list idxs
      | some srv => indexCollLoop srv idxs (FailRec.list []))
      :: buildIndexFailures server rest

/-- Effectful map over a list in the `Except` monad, modelling a Python
loop whose body can raise. -/
def exMapM {α β : Type} (f : α → Except String β) : List α → Except String (List β)
  | [] => .ok []
  | x :: rest =>
    match f x with
    | .error e => .error e
    | .ok y =>
      match exMapM f rest with
      | .error e => .error e
      | .ok ys => .ok (y :: ys)

/-- Identity string of one index document:
`f"{coll_name}/{index['type']}/{index['fields']}"` (line 186); a
missing key raises `KeyError`. -/
def idxName (coll : String) (d : Dict) : Except String String :=
  match alookup d "type" with
  | none => .error "KeyError: type"
  | some t =>
    match alookup d "fields" with
    | none => .error "KeyError: fields"
    | some fl => .ok (coll ++ "/" ++ pyStr t ++ "/" ++ pyStr fl)

/-- Names contributed by one collection entry of the failed-specs dict
in `get_names(specs, "indexes")` (lines 184-186): iterating a list
visits its index documents; iterating a bare dict visits its keys
(strings), and `index['type']` on a string raises `TypeError`. -/
def idxNamesOfRec (coll : String) : FailRec → Except String (List String)
  | .list ds => exMapM (idxName coll) ds
  | .single d =>
    if d.isEmpty then .ok []
    else .error "TypeError: string indices must be integers"

/-- Branch `schema_type in ["indexes"]` of `get_names` (lines 183-186). -/
def get_names_indexes : List (String × FailRec) → Except String (List String)
  | [] => .ok []
  | (coll, r) :: rest =>
    match idxNamesOfRec coll r with
    | .error e => .error e
    | .ok ns =>
      match get_names_indexes rest with
      | .error e => .error e
      | .ok more => .ok (ns ++ more)

/-- Identity string `f"{spec['name']}/{spec['type']}"` of a view or
analyzer spec (line 182); a missing key raises `KeyError`. -/
def ntName (d : Dict) : Except String String :=
  match alookup d "name" with
  | none => .error "KeyError: name"
  | some n =>
    match alookup d "type" with
    | none => .error "KeyError: type"
    | some t => .ok (pyStr n ++ "/" ++ pyStr t)

/-- Branch `schema_type in ["views", "analyzers"]` of `get_names`
(lines 180-182). -/
def get_names_nt (specs : List Dict) : Except String (List String) :=
  exMapM ntName specs

/-- Observable effect of `print_failed_vs_server("indexes", ...)`
(lines 192-213): the message f-string calls `get_names` on the failed
specs and then on the full server state; an exception raised there
propagates; the printed text itself is unobservable. -/
def printFailedIndexes (failed : List (String × FailRec))
    (server : List (String × List Dict)) : Except String Unit :=
  match get_names_indexes failed with
  | .error e => .error e
  | .ok _ =>
    match get_names_indexes (server.map fun p => (p.1, FailRec.list p.2)) with
    | .error e => .error e
    | .ok _ => .ok ()

/-- Observable effect of `print_failed_vs_server` for the views and
analyzers families. -/
def printFailedNT (failed : List Dict) (server : List Dict) : Except String Unit :=
  match get_names_nt failed with
  | .error e => .error e
  | .ok _ =>
    match get_names_nt server with
    | .error e => .error e
    | .ok _ => .ok ()

/-- The index-family Reconciler `ensure_indexes()` (lines 25-74).
`fetch` is the result of `arango_client.get_all_indexes()`, which may
raise; `localIdx` is the collection-name-to-indexes mapping built by
`get_local_coll_indexes()`.  Returns the failure-name list and the
filtered failed-specs record, or the first exception raised. -/
def ensure_indexes (fetch : Except String (List (String × List Dict)))
    (localIdx : List (String × List Dict)) :
    Except String (List String × List (String × FailRec)) :=
  match fetch with
  | .error e => .error e
  | .ok server =>
    let failed := (buildIndexFailures server localIdx).filter fun p => failTruthy p.2
    match (if failed.isEmpty then Except.ok () else printFailedIndexes failed server) with
    | .error e => .error e
    | .ok _ =>
      match get_names_indexes failed with
      | .error e => .error e
      | .ok names => .ok (names, failed)

/-- The view-family Reconciler `ensure_views()` (lines 77-110): fetch
the remote views, normalize them with float rounding, match every local
view against the pool, and collect failures in order. -/
def ensure_views (fetch : Except String (List Dict)) (localViews : List Dict) :
    Except String (List String × List Dict) :=
  match fetch with
  | .error e => .error e
  | .ok pool0 =>
    let pool := pool0.map (modFields .floatKind roundLit)
    let failed := localViews.filter fun l => !matchLoop l pool
    match (if failed.isEmpty then Except.ok () else printFailedNT failed pool) with
    | .error e => .error e
    | .ok _ =>
      match get_names_nt failed with
      | .error e => .error e
      | .ok names => .ok (names, failed)

/-- Match loop of `ensure_analyzers` (lines 133-137).  Unlike the other
two pipelines, `match` is reset to `False` inside the loop body, so the
loop leaves `match` unbound (`none`) when the pool is empty, and
`if match is False` on line 138 then raises `UnboundLocalError`.
(`match` is a function-level local in Python, but with a nonempty pool
every outer iteration reassigns it before the test, and with an empty
pool the very first outer iteration raises, so no cross-iteration
leak is observable.) -/
def analyzersMatchLoop (l : Dict) : List Dict → Option Bool
  | [] => none
  | r :: rest =>
    if itemsSubset l r then some true
    else
      match rest with
      | [] => some false
      | _ :: _ => analyzersMatchLoop l rest

/-- Loop of `ensure_analyzers` over the local analyzer specs (lines
130-139): an unbound `match` raises; otherwise unmatched specs are
appended to the failure list in order. -/
def analyzersFailed (pool : List Dict) : List Dict → Except String (List Dict)
  | [] => .ok []
  | l :: rest =>
    match analyzersMatchLoop l pool with
    | none => .error "UnboundLocalError: local variable referenced before assignment"
    | some true => analyzersFailed pool rest
    | some false =>
      match analyzersFailed pool rest with
      | .error e => .error e
      | .ok fs => .ok (l :: fs)

/-- The analyzer-family Reconciler `ensure_analyzers()` (lines
113-146): fetch the remote analyzers, normalize them with namespace
excision, match every local analyzer, and collect failures. -/
def ensure_analyzers (fetch : Except String (List Dict)) (localAnalyzers : List Dict) :
    Except String (List String × List Dict) :=
  match fetch with
  | .error e => .error e
  | .ok pool0 =>
    let pool := pool0.map (modFields .strKind exciseLit)
    match analyzersFailed pool localAnalyzers with
    | .error e => .error e
    | .ok failed =>
      match (if failed.isEmpty then Except.ok () else printFailedNT failed pool) with
      | .error e => .error e
      | .ok _ =>
        match get_names_nt failed with
        | .error e => .error e
        | .ok names => .ok (names, failed)

/-- The Aggregator `ensure_all()` (lines 149-172): runs the three
family reconcilers in the fixed order indexes, views, analyzers and
returns the summary dict (modelled as an ordered association list). -/
def ensure_all
    (fetchIdx : Except String (List (String × List Dict)))
    (localIdx : List (String × List Dict))
    (fetchViews : Except String (List Dict)) (localViews : List Dict)
    (fetchAnalyzers : Except String (List Dict)) (localAnalyzers : List Dict) :
    Except String (List (String × List String)) :=
  match ensure_indexes fetchIdx localIdx with
  | .error e => .error e
  | .ok (idxNames, _) =>
    match ensure_views fetchViews localViews with
    | .error e => .error e
    | .ok (viewNames, _) =>
      match ensure_analyzers fetchAnalyzers localAnalyzers with
      | .error e => .error e
      | .ok (analyzerNames, _) =>
        .ok [("indexes", idxNames), ("views", viewNames), ("analyzers", analyzerNames)]

/-- Applying `mod_obj_literal` to a server pool (a JSON list of dicts,
as fetched by `ensure_views` and `ensure_analyzers`) acts exactly as
`modFields` on each document. -/
theorem mod_obj_literal_pool (k : LitKind) (f : Json → Json) (pool : List Dict) :
    mod_obj_literal k f (Json.arr (pool.map Json.obj))
      = Json.arr ((pool.map (modFields k f)).map Json.obj) := by
  simp only [mod_obj_literal]
  induction pool with
  | nil => simp [modElems]
  | cons hd tl ih => simp_all [modElems, isContainer, mod_obj_literal]

theorem exMapM_ok_mem {α β : Type} {f : α → Except String β} {xs : List α} {ys : List β}
    (h : exMapM f xs = Except.ok ys) {x : α} (hx : x ∈ xs) :
    ∃ y, f x = Except.ok y ∧ y ∈ ys := by
  induction xs generalizing ys with
  | nil => simp at hx
  | cons hd tl ih =>
    rw [exMapM] at h
    cases hf : f hd with
    | error e => rw [hf] at h; exact absurd h (by simp)
    | ok y =>
      rw [hf] at h
      cases hrest : exMapM f tl with
      | error e => rw [hrest] at h; exact absurd h (by simp)
      | ok ys2 =>
        rw [hrest] at h
        injection h with h2
        subst h2
        rcases List.mem_cons.mp hx with he | ht
        · subst he
          exact ⟨y, hf, List.mem_cons_self _ _⟩
        · obtain ⟨y2, hy2, hmem⟩ := ih hrest ht
          exact ⟨y2, hy2, List.mem_cons_of_mem _ hmem⟩

theorem get_names_indexes_ok_mem {specs : List (String × FailRec)} {names : List String}
    (h : get_names_indexes specs = Except.ok names) {coll : String} {idxs : List Dict}
    (hmem : (coll, FailRec.list idxs) ∈ specs) {d : Dict} (hd : d ∈ idxs) :
    ∃ nm, idxName coll d = Except.ok nm ∧ nm ∈ names := by
  induction specs generalizing names with
  | nil => simp at hmem
  | cons hd2 tl ih =>
    obtain ⟨c, r⟩ := hd2
    rw [get_names_indexes] at h
    cases h1 : idxNamesOfRec c r with
    | error e => rw [h1] at h; exact absurd h (by simp)
    | ok ns =>
      rw [h1] at h
      cases h2 : get_names_indexes tl with
      | error e => rw [h2] at h; exact absurd h (by simp)
      | ok more =>
        rw [h2] at h
        injection h with h3
        subst h3
        rcases List.mem_cons.mp hmem with he | ht
        · obtain ⟨he1, he2⟩ := Prod.mk.injEq .. ▸ he
          subst he1
          rw [← he2] at h1
          rw [show idxNamesOfRec coll (FailRec.list idxs)
                = exMapM (idxName coll) idxs from rfl] at h1
          obtain ⟨nm, hnm, hin⟩ := exMapM_ok_mem h1 hd
          exact ⟨nm, hnm, List.mem_append_left _ hin⟩
        · obtain ⟨nm, hnm, hin⟩ := ih h2 ht
          exact ⟨nm, hnm, List.mem_append_right _ hin⟩

theorem buildIndexFailures_absent {server : List (String × List Dict)}
    {localIdx : List (String × List Dict)} {coll : String} {idxs : List Dict}
    (habsent : alookup server coll = none) (hmem : (coll, idxs) ∈ localIdx) :
    (coll, FailRec.list idxs) ∈ buildIndexFailures server localIdx := by
  induction localIdx with
  | nil => simp at hmem
  | cons hd tl ih =>
    obtain ⟨c, is⟩ := hd
    rw [buildIndexFailures]
    rcases List.mem_cons.mp hmem with he | ht
    · obtain ⟨he1, he2⟩ := Prod.mk.injEq .. ▸ he
      subst he1 he2
      rw [habsent]
      exact List.mem_cons_self _ _
    · exact List.mem_cons_of_mem _ (ih ht)

/-- C6: for a local collection whose name is absent from the remote
index state, every local index of that collection is recorded as failed
(the whole local index list becomes the failure record), and whenever
`ensure_indexes` returns, every such index contributes its identity
string `"{collection}/{index_type}/{index_fields}"` to the returned
failure-name list. -/
theorem ensure_indexes_absent_collection
    (server : List (String × List Dict)) (localIdx : List (String × List Dict))
    (coll : String) (idxs : List Dict) (names : List String)
    (failed : List (String × FailRec))
    (habsent : alookup server coll = none)
    (hmem : (coll, idxs) ∈ localIdx)
    (hok : ensure_indexes (.ok server) localIdx = .ok (names, failed)) :
    (idxs ≠ [] → (coll, FailRec.list idxs) ∈ failed)
    ∧ ∀ d ∈ idxs, ∃ nm, idxName coll d = Except.ok nm ∧ nm ∈ names := by
  rw [ensure_indexes] at hok
  split at hok
  · exact absurd hok (by simp)
  · split at hok
    · exact absurd hok (by simp)
    · rename_i names2 hnames
      injection hok with hok2
      obtain ⟨hn, hf⟩ := Prod.mk.injEq .. ▸ hok2.symm
      subst hn hf
      have hrecmem : idxs ≠ [] →
          (coll, FailRec.list idxs)
            ∈ (buildIndexFailures server localIdx).filter fun p => failTruthy p.2 := by
        intro hne
        apply List.mem_filter.mpr
        refine ⟨buildIndexFailures_absent habsent hmem, ?_⟩
        simp [failTruthy, hne]
      constructor
      · exact hrecmem
      · intro d hd
        have hne : idxs ≠ [] := List.ne_nil_of_mem hd
        exact get_names_indexes_ok_mem hnames (hrecmem hne) hd

/-- C6 witness: Scenario 3 of the spec — the local collection
"reactions" declares one index of type "persistent" on fields ["id"],
the remote state has no entry for "reactions", the whole local index
list is recorded as failed, and the identity string
"reactions/persistent/[" ++ squote ++ "id" ++ squote ++ "]" appears in
the returned failure-name list. -/
theorem ensure_indexes_absent_collection_witness :
    alookup ([] : List (String × List Dict)) "reactions" = none
    ∧ ("reactions", [[("type", Json.str "persistent"),
          ("fields", Json.arr [Json.str "id"])]])
        ∈ [("reactions", [[("type", Json.str "persistent"),
            ("fields", Json.arr [Json.str "id"])]])]
    ∧ ensure_indexes (.ok ([] : List (String × List Dict)))
        [("reactions", [[("type", Json.str "persistent"),
          ("fields", Json.arr [Json.str "id"])]])]
        = .ok (["reactions/persistent/[" ++ squote ++ "id" ++ squote ++ "]"],
            [("reactions", FailRec.list [[("type", Json.str "persistent"),
              ("fields", Json.arr [Json.str "id"])]])])
    ∧ (("reactions", FailRec.list [[("type", Json.str "persistent"),
          ("fields", Json.arr [Json.str "id"])]])
        ∈ [("reactions", FailRec.list [[("type", Json.str "persistent"),
            ("fields", Json.arr [Json.str "id"])]])])
    ∧ ∀ d ∈ [[("type", Json.str "persistent"), ("fields", Json.arr [Json.str "id"])]],
        ∃ nm, idxName "reactions" d = Except.ok nm
          ∧ nm ∈ ["reactions/persistent/[" ++ squote ++ "id" ++ squote ++ "]"] := by
  have h := ensure_indexes_absent_collection []
    [("reactions", [[("type", Json.str "persistent"),
      ("fields", Json.arr [Json.str "id"])]])]
    "reactions" [[("type", Json.str "persistent"), ("fields", Json.arr [Json.str "id"])]]
    ["reactions/persistent/[" ++ squote ++ "id" ++ squote ++ "]"]
    [("reactions", FailRec.list [[("type", Json.str "persistent"),
      ("fields", Json.arr [Json.str "id"])]])]
    rfl (by simp) rfl
  exact ⟨rfl, by simp, rfl, h.1 (by simp), h.2⟩

/-- C1: the claim states that `ensure_indexes` accumulates every
mismatching index of a collection present in the remote state; the code
(line 64) instead overwrites the per-collection record, retaining only
the last mismatching index, stored as a bare index document rather than
a list.  Evaluated at a server that reports collection "c" with an
empty index sequence and two local indexes that both fail the Matcher:
only the second index survives, as a bare document, not the claimed
two-element accumulation. -/
theorem ensure_indexes_overwrites_not_accumulates :
    buildIndexFailures [("c", [])]
        [("c", [[("type", Json.str "persistent"), ("fields", Json.arr [Json.str "id"])],
                [("type", Json.str "fulltext"),
                 ("fields", Json.arr [Json.str "scientific_name"])]])]
      = [("c", FailRec.single
            [("type", Json.str "fulltext"),
             ("fields", Json.arr [Json.str "scientific_name"])])]
    ∧ FailRec.single [("type", Json.str "fulltext"),
         ("fields", Json.arr [Json.str "scientific_name"])]
      ≠ FailRec.list
          [[("type", Json.str "persistent"), ("fields", Json.arr [Json.str "id"])],
           [("type", Json.str "fulltext"),
            ("fields", Json.arr [Json.str "scientific_name"])]] :=
  ⟨rfl, by decide⟩

/-- C10: with collection "c" present in the remote state (empty index
sequence there) and one local index the Matcher leaves unsatisfied,
`ensure_indexes` stores that single index document — a mapping, not a
sequence — as the failure record for "c", and `get_names`, which
iterates the record (yielding its string keys) and subscripts each
element with "type", raises a TypeError, so `ensure_indexes` raises
instead of returning the failure report. -/
theorem ensure_indexes_single_record_raises :
    buildIndexFailures [("c", [])]
        [("c", [[("type", Json.str "persistent"), ("fields", Json.arr [Json.str "id"])]])]
      = [("c", FailRec.single
          [("type", Json.str "persistent"), ("fields", Json.arr [Json.str "id"])])]
    ∧ get_names_indexes
        [("c", FailRec.single
          [("type", Json.str "persistent"), ("fields", Json.arr [Json.str "id"])])]
      = .error "TypeError: string indices must be integers"
    ∧ ensure_indexes (.ok [("c", [])])
        [("c", [[("type", Json.str "persistent"), ("fields", Json.arr [Json.str "id"])]])]
      = .error "TypeError: string indices must be integers" :=
  ⟨rfl, rfl, rfl⟩

/-- C3: the claim says a local spec none of whose key/value pairs are
matched is recorded as a failure — never an error — in all three
pipelines, including on the empty pool.  The matching check is indeed
false and the views pipeline records the failure; but on the empty pool
the analyzers pipeline raises UnboundLocalError (its `match` flag is
assigned only inside the loop over the pool, lines 133-137), and the
index pipeline raises a TypeError downstream (via C10) for a mismatched
index of a collection present remotely. -/
theorem negative_case_three_pipelines :
    matchLoop [("name", Json.str "n"), ("type", Json.str "t")] [] = false
    ∧ ensure_views (.ok []) [[("name", Json.str "n"), ("type", Json.str "t")]]
        = .ok (["n/t"], [[("name", Json.str "n"), ("type", Json.str "t")]])
    ∧ ensure_analyzers (.ok []) [[("name", Json.str "n"), ("type", Json.str "t")]]
        = .error "UnboundLocalError: local variable referenced before assignment"
    ∧ ensure_indexes (.ok [("c", [])])
        [("c", [[("type", Json.str "persistent"), ("fields", Json.arr [Json.str "id"])]])]
        = .error "TypeError: string indices must be integers" :=
  ⟨rfl, rfl, rfl, rfl⟩

/-- C7: `excise_namespace` keeps exactly the last chunk of the
split along `"::"` separators: the split decomposes the name (rejoining
the chunks with `"::"` restores it), the kept chunk contains no further
separator, and a name with no separator is kept whole; the analyzer
pipeline applies this excision to every textual leaf of the remote
snapshot before matching — concretely, the local analyzer
`name icu_tokenize, type text` produces no failure against the remote
pool holding `name _system::icu_tokenize, type text`. -/
theorem excise_namespace_keeps_last_chunk (s : String) :
    joinColons (splitColons s.data) = s.data
    ∧ hasColons (excise_namespace s).data = false
    ∧ (hasColons s.data = false → excise_namespace s = s)
    ∧ ensure_analyzers
        (.ok [[("name", Json.str "_system::icu_tokenize"), ("type", Json.str "text")]])
        [[("name", Json.str "icu_tokenize"), ("type", Json.str "text")]]
      = .ok ([], []) := by
  refine ⟨joinColons_splitColons s.data, hasColons_getLastD s.data, ?_, rfl⟩
  intro h
  unfold excise_namespace
  rw [splitColons_no_colons h]
  rfl

/-- C7 witness: the excision theorem applied at the separator-free
analyzer name "text". -/
theorem excise_namespace_keeps_last_chunk_witness :
    hasColons ("text" : String).data = false ∧ excise_namespace "text" = "text" :=
  ⟨by decide, ((excise_namespace_keeps_last_chunk "text").2.2.1) (by decide)⟩

/-- C8: whenever the Aggregator `ensure_all` returns a summary, the
three family reconcilers ran in the fixed order indexes, views,
analyzers, and the summary binds exactly the keys "indexes", "views",
"analyzers" in that order, each to the corresponding family's ordered
failure-name list (empty lists denoting full conformance). -/
theorem ensure_all_summary
    (fetchIdx : Except String (List (String × List Dict)))
    (localIdx : List (String × List Dict))
    (fetchViews : Except String (List Dict)) (localViews : List Dict)
    (fetchAnalyzers : Except String (List Dict)) (localAnalyzers : List Dict)
    (m : List (String × List String))
    (h : ensure_all fetchIdx localIdx fetchViews localViews
          fetchAnalyzers localAnalyzers = .ok m) :
    ∃ i fi v fv a fa,
      ensure_indexes fetchIdx localIdx = .ok (i, fi)
      ∧ ensure_views fetchViews localViews = .ok (v, fv)
      ∧ ensure_analyzers fetchAnalyzers localAnalyzers = .ok (a, fa)
      ∧ m = [("indexes", i), ("views", v), ("analyzers", a)]
      ∧ m.map Prod.fst = ["indexes", "views", "analyzers"] := by
  rw [ensure_all] at h
  split at h
  · exact absurd h (by simp)
  · rename_i idxNames fi hIdx
    split at h
    · exact absurd h (by simp)
    · rename_i viewNames fv hViews
      split at h
      · exact absurd h (by simp)
      · rename_i analyzerNames fa hAnalyzers
        injection h with h2
        subst h2
        exact ⟨idxNames, fi, viewNames, fv, analyzerNames, fa,
          hIdx, hViews, hAnalyzers, rfl, rfl⟩

/-- C8 witness: the Aggregator theorem applied at empty local
declarations and empty remote state for all three families. -/
theorem ensure_all_summary_witness :
    ensure_all (.ok []) [] (.ok []) [] (.ok []) []
      = .ok [("indexes", []), ("views", []), ("analyzers", [])]
    ∧ ∃ i fi v fv a fa,
        ensure_indexes (.ok []) [] = .ok (i, fi)
        ∧ ensure_views (.ok []) [] = .ok (v, fv)
        ∧ ensure_analyzers (.ok []) [] = .ok (a, fa)
        ∧ [("indexes", ([] : List String)), ("views", []), ("analyzers", [])]
            = [("indexes", i), ("views", v), ("analyzers", a)]
        ∧ [("indexes", ([] : List String)), ("views", []),
            ("analyzers", [])].map Prod.fst = ["indexes", "views", "analyzers"] :=
  ⟨rfl, ensure_all_summary (.ok []) [] (.ok []) [] (.ok []) [] _ rfl⟩

/-- C9: a backend error raised by the Remote State Client fetch is not
caught by the engine: each family reconciler, and the Aggregator,
surfaces exactly that error to the caller, and no (partial) failure
report is produced by that run. -/
theorem backend_error_propagates (e : String)
    (localIdx : List (String × List Dict)) (localViews localAnalyzers : List Dict) :
    ensure_indexes (.error e) localIdx = .error e
    ∧ ensure_views (.error e) localViews = .error e
    ∧ ensure_analyzers (.error e) localAnalyzers = .error e
    ∧ ensure_all (.error e) localIdx (.error e) localViews (.error e) localAnalyzers
        = .error e
    ∧ ∀ r, ensure_indexes (.error e) localIdx ≠ .ok r :=
  ⟨rfl, rfl, rfl, rfl, fun _ h => Except.noConfusion h⟩

end RelationEngine
